import Mathlib

/-!
Verification of the tiny HTTP server (src/server.py) against its
natural-language specification.

Bytes are modelled as `List Nat` (one entry per byte) and Python `str`
values as `List Char`.  Every definition below is a direct translation of
the corresponding construct in src/server.py:

* `http_response`    — the response builder (lines 32-39);
* `handle_request`   — request parsing and dispatch (lines 67-88), with the
  process-wide `INDEX` blob passed in as an explicit argument;
* `decodeReplace`    — Python `bytes.decode("utf-8", "replace")`, following
  CPython's maximal-subpart replacement rules;
* `splitOnceSeq`     — Python `x.split(sep, 1)` (the two pieces);
* `splitChar2`       — Python `s.split(" ", 2)`;
* `readLoop`         — the buffering loop of the connection handler
  (lines 140-144), over an abstract sequence of `recv` results.
-/

/-! ### Generic list helpers -/

/-- `startsWith pat l` is true when `pat` is a prefix of `l`. -/
def startsWith {α : Type} [DecidableEq α] : List α → List α → Bool
  | [], _ => true
  | _ :: _, [] => false
  | p :: ps, x :: xs => if p = x then startsWith ps xs else false

/-- Python `l.split(pat, 1)` for a non-empty separator `pat`: the part before
the first occurrence of `pat`, and (when `pat` occurs) the part after it. -/
def splitOnceSeq {α : Type} [DecidableEq α] (pat : List α) : List α → List α × Option (List α)
  | [] => ([], none)
  | x :: xs =>
    if startsWith pat (x :: xs) then ([], some (List.drop pat.length (x :: xs)))
    else (x :: (splitOnceSeq pat xs).1, (splitOnceSeq pat xs).2)

/-- Python `pat in l` for a non-empty `pat`: contiguous subsequence test. -/
def containsSeq {α : Type} [DecidableEq α] (pat : List α) : List α → Bool
  | [] => false
  | x :: xs => startsWith pat (x :: xs) || containsSeq pat xs

/-- Number of occurrences of `a` in `l`. -/
def countOcc {α : Type} [DecidableEq α] (a : α) : List α → Nat
  | [] => 0
  | x :: xs => (if x = a then 1 else 0) + countOcc a xs

/-- Python `sep.join(parts)`. -/
def joinSep {α : Type} (sep : List α) : List (List α) → List α
  | [] => []
  | [a] => a
  | a :: b :: rest => a ++ sep ++ joinSep sep (b :: rest)

/-- Python `s.split(c)` with no split limit (used only to state the
spec's unbounded "split on single spaces" reading). -/
def splitAllChar {α : Type} [DecidableEq α] (c : α) : List α → List (List α)
  | [] => [[]]
  | x :: xs =>
    match splitAllChar c xs with
    | h :: t => if x = c then [] :: h :: t else (x :: h) :: t
    | [] => [[x]]

/-! ### UTF-8 encoding (Python `str.encode("utf-8")`) -/

/-- UTF-8 encoding of one code point. -/
def utf8EncodeChar (c : Char) : List Nat :=
  let n := c.toNat
  if n < 128 then [n]
  else if n < 2048 then [192 + n / 64, 128 + n % 64]
  else if n < 65536 then [224 + n / 4096, 128 + (n / 64) % 64, 128 + n % 64]
  else [240 + n / 262144, 128 + (n / 4096) % 64, 128 + (n / 64) % 64, 128 + n % 64]

/-- UTF-8 encoding of a character list. -/
def utf8Encode : List Char → List Nat
  | [] => []
  | c :: s => utf8EncodeChar c ++ utf8Encode s

/-- The character list of a Lean string literal (model of a Python `str`). -/
def strL (s : String) : List Char := s.data

/-- A Python `b"..."` literal over ASCII text: one byte per character. -/
def asciiBytes (s : String) : List Nat := s.data.map Char.toNat

/-! ### UTF-8 decoding with replacement (Python `bytes.decode("utf-8", "replace")`) -/

/-- The replacement character U+FFFD. -/
def fffd : Char := '�'

/-- Is `b` a UTF-8 continuation byte (0x80-0xBF)? -/
def isCont (b : Nat) : Bool := 128 ≤ b && b ≤ 191

/-- Valid second byte for a three-byte sequence led by `x`
(0xE0 narrows to 0xA0-0xBF, 0xED to 0x80-0x9F). -/
def cont2 (x b : Nat) : Bool :=
  if x = 224 then 160 ≤ b && b ≤ 191
  else if x = 237 then 128 ≤ b && b ≤ 159
  else isCont b

/-- Valid second byte for a four-byte sequence led by `x`
(0xF0 narrows to 0x90-0xBF, 0xF4 to 0x80-0x8F). -/
def cont3 (x b : Nat) : Bool :=
  if x = 240 then 144 ≤ b && b ≤ 191
  else if x = 244 then 128 ≤ b && b ≤ 143
  else isCont b

/-- One step of CPython's UTF-8 decoder with the `replace` error handler,
positioned at lead byte `x` with remaining input `xs`: the decoded character
(a scalar value or U+FFFD for a maximal ill-formed subpart) and the input
remaining after the consumed bytes. -/
def decodeStep (x : Nat) (xs : List Nat) : Char × List Nat :=
  if x < 128 then (Char.ofNat x, xs)
  else if x < 194 then (fffd, xs)
  else if x ≤ 223 then
    match xs with
    | b1 :: r1 =>
      if isCont b1 then (Char.ofNat ((x - 192) * 64 + (b1 - 128)), r1) else (fffd, xs)
    | [] => (fffd, xs)
  else if x ≤ 239 then
    match xs with
    | b1 :: r1 =>
      if cont2 x b1 then
        match r1 with
        | b2 :: r2 =>
          if isCont b2 then
            (Char.ofNat ((x - 224) * 4096 + (b1 - 128) * 64 + (b2 - 128)), r2)
          else (fffd, r1)
        | [] => (fffd, r1)
      else (fffd, xs)
    | [] => (fffd, xs)
  else if x ≤ 244 then
    match xs with
    | b1 :: r1 =>
      if cont3 x b1 then
        match r1 with
        | b2 :: r2 =>
          if isCont b2 then
            match r2 with
            | b3 :: r3 =>
              if isCont b3 then
                (Char.ofNat ((x - 240) * 262144 + (b1 - 128) * 4096
                             + (b2 - 128) * 64 + (b3 - 128)), r3)
              else (fffd, r2)
            | [] => (fffd, r2)
          else (fffd, r1)
        | [] => (fffd, r1)
      else (fffd, xs)
    | [] => (fffd, xs)
  else (fffd, xs)

/-- Fuel-driven decoding loop (the fuel is only a termination device;
`decodeStep` never consumes more than it is given). -/
def decodeAux : Nat → List Nat → List Char
  | 0, _ => []
  | _, [] => []
  | fuel + 1, x :: xs => (decodeStep x xs).1 :: decodeAux fuel (decodeStep x xs).2

/-- Python `bs.decode("utf-8", "replace")`. -/
def decodeReplace (l : List Nat) : List Char := decodeAux l.length l

/-! ### The server code (src/server.py) -/

/-- The carriage-return character. -/
def crChar : Char := '\r'

/-- The line-feed character. -/
def lfChar : Char := '\n'

/-- The space character. -/
def spChar : Char := ' '

/-- `http_response(status, content_type, body)` (server.py lines 32-39):
four header lines joined by CRLF, a blank line, then the raw body. -/
def http_response (status content_type : List Char) (body : List Nat) : List Nat :=
  utf8Encode
    (joinSep (strL "\r\n")
      [strL "HTTP/1.1 " ++ status,
       strL "Content-Type: " ++ content_type,
       strL "Content-Length: " ++ strL (Nat.repr body.length),
       strL "Connection: close"]
     ++ strL "\r\n\r\n")
  ++ body

/-- The default content type of `http_response`. -/
def defaultCT : List Char := strL "text/plain; charset=utf-8"

/-- The 400 response produced by the `except` branch of `handle_request`. -/
def response400 : List Nat :=
  http_response (strL "400 Bad Request") defaultCT (asciiBytes "bad request")

/-- The 405 response for non-GET methods. -/
def response405 : List Nat :=
  http_response (strL "405 Method Not Allowed") defaultCT (asciiBytes "Only GET Method Supported")

/-- The 200 response serving the index page, for index content `idx`. -/
def html200 (idx : List Nat) : List Nat :=
  http_response (strL "200 OK") (strL "text/html; charset=utf-8") idx

/-- `json.dumps({"message": "Hello from my Tiny HTTP Server", "ok": True})`:
the dict keeps insertion order (message, ok) and `json.dumps` uses the
default separators, producing this exact text. -/
def jsonHello : List Char :=
  strL "\x7b\"message\": \"Hello from my Tiny HTTP Server\", \"ok\": true\x7d"

/-- The 200 response of the /api/hello endpoint. -/
def json200 : List Nat :=
  http_response (strL "200 OK") (strL "application/json; charset=utf-8") (utf8Encode jsonHello)

/-- The 404 response for unknown paths. -/
def response404 : List Nat :=
  http_response (strL "404 Not Found") defaultCT (asciiBytes "Not Found")

/-- `req.split(b"\r\n\r\n", 1)[0]` — the header block of the raw request. -/
def headBytes (req : List Nat) : List Nat :=
  (splitOnceSeq [13, 10, 13, 10] req).1

/-- `head.split("\r\n", 1)[0]` after decoding — the request line. -/
def requestLine (req : List Nat) : List Char :=
  (splitOnceSeq [crChar, lfChar] (decodeReplace (headBytes req))).1

/-- Python `s.split(" ", 2)`: at most two splits, the third piece keeps the
remainder (including any further spaces). -/
def splitChar2 (s : List Char) : List (List Char) :=
  match splitOnceSeq [spChar] s with
  | (a, none) => [a]
  | (a, some r1) =>
    match splitOnceSeq [spChar] r1 with
    | (b, none) => [a, b]
    | (b, some r2) => [a, b, r2]

/-- `request_line.split(" ", 2)` — the tokens of the request line. -/
def requestTokens (req : List Nat) : List (List Char) :=
  splitChar2 (requestLine req)

/-- The dispatch of `handle_request` after a successful parse
(server.py lines 75-88). -/
def route (idx : List Nat) (method path : List Char) : List Nat :=
  if method ≠ strL "GET" then response405
  else if path = strL "/" ∨ path = strL "/index.html" then html200 idx
  else if path = strL "/api/hello" then json200
  else response404

/-- `handle_request(req)` (server.py lines 67-88), with the module-level
`INDEX` bytes passed as `idx`.  The `try` block can only fail at the
three-way unpacking of the split request line, so the `except` branch fires
exactly when `split(" ", 2)` yields fewer than three pieces. -/
def handle_request (idx : List Nat) (req : List Nat) : List Nat :=
  match requestTokens req with
  | [method, path, _] => route idx method path
  | _ => response400

/-- `b"\r\n\r\n" in buffer`. -/
def hasDelim (buffer : List Nat) : Bool := containsSeq [13, 10, 13, 10] buffer

/-- The buffering loop of the connection handler (server.py lines 140-144):
`chunks` is the sequence of successive `recv(4096)` results; an empty chunk
models a read returning zero bytes (peer closed) and exhaustion of the list
models the end of available data. -/
def readLoop : List Nat → List (List Nat) → List Nat
  | buffer, chunks =>
    if hasDelim buffer = true ∨ 65536 ≤ buffer.length then buffer
    else
      match chunks with
      | [] => buffer
      | c :: cs => if c = [] then buffer else readLoop (buffer ++ c) cs

/-! ### Concrete inputs used by witnesses and counterexamples -/

/-- The first line of the raw request, at byte level: the bytes before the
first CRLF (the whole request when no CRLF occurs).  This is the notion
"first line of the request" used by the specification. -/
def firstLineBytes (req : List Nat) : List Nat :=
  (splitOnceSeq [13, 10] req).1

/-- A request whose first line has four space-separated words. -/
def exReqFourTokens : List Nat := asciiBytes "GET /missing HTTP/1.1 extra\r\n\r\n"

/-- A well-formed GET request for /api/hello. -/
def exReqHello : List Nat := asciiBytes "GET /api/hello HTTP/1.1\r\nHost: x\r\n\r\n"

/-- A POST request. -/
def exReqPost : List Nat := asciiBytes "POST /api/hello HTTP/1.1\r\n\r\n"

/-- A GET request for the root path. -/
def exReqRoot : List Nat := asciiBytes "GET / HTTP/1.1\r\n\r\n"

/-- A GET request for an unknown path. -/
def exReqUnknown : List Nat := asciiBytes "GET /nope HTTP/1.1\r\n\r\n"

/-- A full receive chunk: 4096 bytes of ASCII `A`. -/
def chunk4096 : List Nat := List.replicate 4096 65

/-- Seventeen chunks (4095 bytes, then sixteen times 4096 bytes), none
containing the delimiter: 69631 bytes in total. -/
def exChunks : List (List Nat) :=
  List.replicate 4095 65 :: List.replicate 16 chunk4096

/-! ### Lemmas about the generic helpers -/

theorem splitOnceSeq_pos {α : Type} [DecidableEq α] {pat : List α} {x : α} {xs : List α}
    (h : startsWith pat (x :: xs) = true) :
    splitOnceSeq pat (x :: xs) = ([], some (List.drop pat.length (x :: xs))) := by
  simp [splitOnceSeq, h]

theorem splitOnceSeq_neg {α : Type} [DecidableEq α] {pat : List α} {x : α} {xs : List α}
    (h : startsWith pat (x :: xs) = false) :
    splitOnceSeq pat (x :: xs) = (x :: (splitOnceSeq pat xs).1, (splitOnceSeq pat xs).2) := by
  simp [splitOnceSeq, h]

theorem splitOnceSeq_fst_shape {α : Type} [DecidableEq α] (pat : List α) (x : α) (xs : List α) :
    (splitOnceSeq pat (x :: xs)).1 = [] ∨ ∃ t, (splitOnceSeq pat (x :: xs)).1 = x :: t := by
  cases h : startsWith pat (x :: xs)
  · exact Or.inr ⟨(splitOnceSeq pat xs).1, by rw [splitOnceSeq_neg h]⟩
  · exact Or.inl (by rw [splitOnceSeq_pos h])

theorem utf8Encode_append (a b : List Char) :
    utf8Encode (a ++ b) = utf8Encode a ++ utf8Encode b := by
  induction a with
  | nil => rfl
  | cons c s ih => simp [utf8Encode, ih]

/-! ### Lemmas about characters -/

theorem toNat_ofNat_valid (n : Nat) (h : n.isValidChar) : (Char.ofNat n).toNat = n := by
  simp only [Char.ofNat, dif_pos h]
  rfl

theorem toNat_ofNat_invalid (n : Nat) (h : ¬ n.isValidChar) : (Char.ofNat n).toNat = 0 := by
  simp only [Char.ofNat, dif_neg h]
  rfl

theorem char_eq_iff_toNat (c d : Char) : c = d ↔ c.toNat = d.toNat := by
  constructor
  · intro h; rw [h]
  · intro h
    have h2 := congrArg Char.ofNat h
    rwa [Char.ofNat_toNat, Char.ofNat_toNat] at h2

theorem ofNat_small_eq_iff (x : Nat) (hx : x < 55296) (c : Char) :
    Char.ofNat x = c ↔ x = c.toNat := by
  constructor
  · intro h; rw [← h, toNat_ofNat_valid x (Or.inl hx)]
  · intro h; rw [h, Char.ofNat_toNat]

theorem ofNat_big_toNat (v : Nat) (hv : 128 ≤ v) :
    (Char.ofNat v).toNat = 0 ∨ 128 ≤ (Char.ofNat v).toNat := by
  by_cases h : v.isValidChar
  · exact Or.inr (by rw [toNat_ofNat_valid v h]; exact hv)
  · exact Or.inl (toNat_ofNat_invalid v h)

theorem ofNat_big_ne (v : Nat) (hv : 128 ≤ v) (c : Char)
    (hc1 : c.toNat < 128) (hc2 : c.toNat ≠ 0) : Char.ofNat v ≠ c := by
  intro h
  have h2 := congrArg Char.toNat h
  rcases ofNat_big_toNat v hv with h0 | h0 <;> omega

/-! ### Lemmas about the decoder -/

theorem decodeStep_small {x : Nat} (xs : List Nat) (h : x < 128) :
    decodeStep x xs = (Char.ofNat x, xs) := by
  simp [decodeStep, h]

theorem isCont_ge {b : Nat} (h : isCont b = true) : 128 ≤ b := by
  simp [isCont] at h; exact h.1

theorem cont2_ge {x b : Nat} (h : cont2 x b = true) : 128 ≤ b := by
  unfold cont2 at h
  split_ifs at h <;> simp [isCont] at h <;> omega

theorem cont3_ge {x b : Nat} (h : cont3 x b = true) : 128 ≤ b := by
  unfold cont3 at h
  split_ifs at h <;> simp [isCont] at h <;> omega

theorem cont2_val_ge {x b1 b2 : Nat} (hx1 : 224 ≤ x) (h : cont2 x b1 = true) :
    128 ≤ (x - 224) * 4096 + (b1 - 128) * 64 + (b2 - 128) := by
  unfold cont2 at h
  split_ifs at h with e1 e2 <;> simp [isCont] at h <;> omega

theorem cont3_val_ge {x b1 b2 b3 : Nat} (hx1 : 240 ≤ x) (h : cont3 x b1 = true) :
    128 ≤ (x - 240) * 262144 + (b1 - 128) * 4096 + (b2 - 128) * 64 + (b3 - 128) := by
  unfold cont3 at h
  split_ifs at h with e1 e2 <;> simp [isCont] at h <;> omega

theorem decodeStep_big (x : Nat) (xs : List Nat) (hx : 128 ≤ x) :
    ∃ pre, xs = pre ++ (decodeStep x xs).2
      ∧ (∀ b ∈ pre, 128 ≤ b)
      ∧ ((decodeStep x xs).1 = fffd
         ∨ ∃ v, 128 ≤ v ∧ (decodeStep x xs).1 = Char.ofNat v) := by
  have hx' : ¬ x < 128 := by omega
  by_cases h194 : x < 194
  · exact ⟨[], by simp [decodeStep, hx', h194], by simp,
      Or.inl (by simp [decodeStep, hx', h194])⟩
  by_cases h223 : x ≤ 223
  · rcases xs with _ | ⟨b1, r1⟩
    · exact ⟨[], by simp [decodeStep, hx', h194, h223], by simp,
        Or.inl (by simp [decodeStep, hx', h194, h223])⟩
    by_cases hc : isCont b1 = true
    · refine ⟨[b1], by simp [decodeStep, hx', h194, h223, hc], ?_,
        Or.inr ⟨(x - 192) * 64 + (b1 - 128), ?_, by simp [decodeStep, hx', h194, h223, hc]⟩⟩
      · intro b hb; simp at hb; subst hb; exact isCont_ge hc
      · have hb := isCont_ge hc; omega
    · exact ⟨[], by simp [decodeStep, hx', h194, h223, hc], by simp,
        Or.inl (by simp [decodeStep, hx', h194, h223, hc])⟩
  by_cases h239 : x ≤ 239
  · rcases xs with _ | ⟨b1, r1⟩
    · exact ⟨[], by simp [decodeStep, hx', h194, h223, h239], by simp,
        Or.inl (by simp [decodeStep, hx', h194, h223, h239])⟩
    by_cases hc : cont2 x b1 = true
    · rcases r1 with _ | ⟨b2, r2⟩
      · refine ⟨[b1], by simp [decodeStep, hx', h194, h223, h239, hc], ?_,
          Or.inl (by simp [decodeStep, hx', h194, h223, h239, hc])⟩
        intro b hb; simp at hb; subst hb; exact cont2_ge hc
      by_cases hcc : isCont b2 = true
      · refine ⟨[b1, b2], by simp [decodeStep, hx', h194, h223, h239, hc, hcc], ?_,
          Or.inr ⟨(x - 224) * 4096 + (b1 - 128) * 64 + (b2 - 128),
            cont2_val_ge (by omega) hc,
            by simp [decodeStep, hx', h194, h223, h239, hc, hcc]⟩⟩
        intro b hb
        simp at hb
        rcases hb with hb | hb
        · subst hb; exact cont2_ge hc
        · subst hb; exact isCont_ge hcc
      · refine ⟨[b1], by simp [decodeStep, hx', h194, h223, h239, hc, hcc], ?_,
          Or.inl (by simp [decodeStep, hx', h194, h223, h239, hc, hcc])⟩
        intro b hb; simp at hb; subst hb; exact cont2_ge hc
    · exact ⟨[], by simp [decodeStep, hx', h194, h223, h239, hc], by simp,
        Or.inl (by simp [decodeStep, hx', h194, h223, h239, hc])⟩
  by_cases h244 : x ≤ 244
  · rcases xs with _ | ⟨b1, r1⟩
    · exact ⟨[], by simp [decodeStep, hx', h194, h223, h239, h244], by simp,
        Or.inl (by simp [decodeStep, hx', h194, h223, h239, h244])⟩
    by_cases hc : cont3 x b1 = true
    · rcases r1 with _ | ⟨b2, r2⟩
      · refine ⟨[b1], by simp [decodeStep, hx', h194, h223, h239, h244, hc], ?_,
          Or.inl (by simp [decodeStep, hx', h194, h223, h239, h244, hc])⟩
        intro b hb; simp at hb; subst hb; exact cont3_ge hc
      by_cases hcc : isCont b2 = true
      · rcases r2 with _ | ⟨b3, r3⟩
        · refine ⟨[b1, b2], by simp [decodeStep, hx', h194, h223, h239, h244, hc, hcc], ?_,
            Or.inl (by simp [decodeStep, hx', h194, h223, h239, h244, hc, hcc])⟩
          intro b hb
          simp at hb
          rcases hb with hb | hb
          · subst hb; exact cont3_ge hc
          · subst hb; exact isCont_ge hcc
        by_cases hccc : isCont b3 = true
        · refine ⟨[b1, b2, b3],
            by simp [decodeStep, hx', h194, h223, h239, h244, hc, hcc, hccc], ?_,
            Or.inr ⟨(x - 240) * 262144 + (b1 - 128) * 4096 + (b2 - 128) * 64 + (b3 - 128),
              cont3_val_ge (by omega) hc,
              by simp [decodeStep, hx', h194, h223, h239, h244, hc, hcc, hccc]⟩⟩
          intro b hb
          simp at hb
          rcases hb with hb | hb | hb
          · subst hb; exact cont3_ge hc
          · subst hb; exact isCont_ge hcc
          · subst hb; exact isCont_ge hccc
        · refine ⟨[b1, b2],
            by simp [decodeStep, hx', h194, h223, h239, h244, hc, hcc, hccc], ?_,
            Or.inl (by simp [decodeStep, hx', h194, h223, h239, h244, hc, hcc, hccc])⟩
          intro b hb
          simp at hb
          rcases hb with hb | hb
          · subst hb; exact cont3_ge hc
          · subst hb; exact isCont_ge hcc
      · refine ⟨[b1], by simp [decodeStep, hx', h194, h223, h239, h244, hc, hcc], ?_,
          Or.inl (by simp [decodeStep, hx', h194, h223, h239, h244, hc, hcc])⟩
        intro b hb; simp at hb; subst hb; exact cont3_ge hc
    · exact ⟨[], by simp [decodeStep, hx', h194, h223, h239, h244, hc], by simp,
        Or.inl (by simp [decodeStep, hx', h194, h223, h239, h244, hc])⟩
  · exact ⟨[], by simp [decodeStep, hx', h194, h223, h239, h244], by simp,
      Or.inl (by simp [decodeStep, hx', h194, h223, h239, h244])⟩

theorem decodeStep_len (x : Nat) (xs : List Nat) :
    ((decodeStep x xs).2).length ≤ xs.length := by
  by_cases h : x < 128
  · rw [decodeStep_small xs h]
  · obtain ⟨pre, he, -, -⟩ := decodeStep_big x xs (by omega)
    conv_rhs => rw [he]
    rw [List.length_append]
    omega

theorem decodeAux_irrel : ∀ (n m : Nat) (l : List Nat),
    l.length ≤ n → l.length ≤ m → decodeAux n l = decodeAux m l := by
  intro n
  induction n with
  | zero =>
    intro m l h1 _
    have hl : l = [] := List.length_eq_zero.mp (Nat.le_zero.mp h1)
    subst hl
    cases m <;> rfl
  | succ n ih =>
    intro m l h1 h2
    cases l with
    | nil => cases m <;> rfl
    | cons x xs =>
      cases m with
      | zero => simp at h2
      | succ m' =>
        simp only [decodeAux]
        congr 1
        have hlen := decodeStep_len x xs
        simp only [List.length_cons] at h1 h2
        exact ih m' _ (by omega) (by omega)

theorem decodeReplace_cons (x : Nat) (xs : List Nat) :
    decodeReplace (x :: xs)
      = (decodeStep x xs).1 :: decodeReplace ((decodeStep x xs).2) := by
  unfold decodeReplace
  simp only [List.length_cons, decodeAux]
  congr 1
  exact decodeAux_irrel xs.length ((decodeStep x xs).2).length _ (decodeStep_len x xs) le_rfl

/-! ### Layout of `http_response` and inequalities between responses -/

theorem http_response_layout (status content_type : List Char) (body : List Nat) :
    http_response status content_type body
      = utf8Encode (strL "HTTP/1.1 " ++ status) ++ [13, 10]
        ++ utf8Encode (strL "Content-Type: " ++ content_type) ++ [13, 10]
        ++ utf8Encode (strL "Content-Length: " ++ strL (Nat.repr body.length)) ++ [13, 10]
        ++ utf8Encode (strL "Connection: close") ++ [13, 10] ++ [13, 10] ++ body := by
  unfold http_response
  simp only [joinSep, utf8Encode_append, List.append_assoc]
  simp [show utf8Encode (strL "\r\n") = [13, 10] from rfl,
        show utf8Encode (strL "\r\n\r\n") = [13, 10, 13, 10] from rfl]

theorem r405_ne : response405 ≠ response400 := by decide

theorem r404_ne : response404 ≠ response400 := by decide

theorem json_ne : json200 ≠ response400 := by decide

theorem http_response_getElem9 (status content_type : List Char) (body : List Nat)
    (c : Char) (t : List Char) (hs : status = c :: t) (hc : c.toNat < 128) :
    (http_response status content_type body)[9]? = some c.toNat := by
  subst hs
  rw [http_response_layout]
  have h1 : utf8Encode (strL "HTTP/1.1 " ++ (c :: t))
      = [72, 84, 84, 80, 47, 49, 46, 49, 32] ++ (c.toNat :: utf8Encode t) := by
    rw [utf8Encode_append]
    congr 1
    simp [utf8Encode, utf8EncodeChar, hc]
  rw [h1, List.append_assoc, List.getElem?_append]
  simp

theorem http_response_ne_of_head (c d : Char) (t u ct cu : List Char) (b b' : List Nat)
    (hc : c.toNat < 128) (hd : d.toNat < 128) (hne : c.toNat ≠ d.toNat) :
    http_response (c :: t) ct b ≠ http_response (d :: u) cu b' := by
  intro h
  have h9 := congrArg (fun l => l[9]?) h
  simp only [http_response_getElem9 _ _ _ c t rfl hc,
             http_response_getElem9 _ _ _ d u rfl hd] at h9
  exact hne (Option.some.injEq _ _ ▸ h9 ▸ rfl)

theorem html200_ne (idx : List Nat) : html200 idx ≠ response400 := by
  have e1 : strL "200 OK" = '2' :: strL "00 OK" := rfl
  have e2 : strL "400 Bad Request" = '4' :: strL "00 Bad Request" := rfl
  unfold html200 response400
  rw [e1, e2]
  exact http_response_ne_of_head _ _ _ _ _ _ _ _ (by decide) (by decide) (by decide)

/-! ### Splitting on a single character and counting occurrences -/

theorem splitOnceSeq_single {α : Type} [DecidableEq α] (c : α) (s : List α) :
    ((splitOnceSeq [c] s).2 = none ∧ countOcc c s = 0)
    ∨ ∃ r, (splitOnceSeq [c] s).2 = some r ∧ countOcc c s = countOcc c r + 1 := by
  induction s with
  | nil => exact Or.inl ⟨rfl, rfl⟩
  | cons x xs ih =>
    by_cases hx : c = x
    · refine Or.inr ⟨xs, ?_, ?_⟩
      · rw [splitOnceSeq_pos (by simp [startsWith, hx])]
        simp
      · have hx' : x = c := hx.symm
        simp [countOcc, hx']
        omega
    · have hsw : startsWith [c] (x :: xs) = false := by simp [startsWith, hx]
      have hx' : ¬ x = c := fun h => hx h.symm
      rcases ih with ⟨h1, h2⟩ | ⟨r, h1, h2⟩
      · exact Or.inl ⟨by rw [splitOnceSeq_neg hsw]; exact h1, by simp [countOcc, hx', h2]⟩
      · exact Or.inr ⟨r, by rw [splitOnceSeq_neg hsw]; exact h1,
          by simp [countOcc, hx', h2]⟩

theorem countOcc_of_split_none {α : Type} [DecidableEq α] {c : α} {s : List α}
    (h : (splitOnceSeq [c] s).2 = none) : countOcc c s = 0 := by
  rcases splitOnceSeq_single c s with ⟨-, h2⟩ | ⟨r, h1, -⟩
  · exact h2
  · rw [h1] at h; simp at h

theorem countOcc_of_split_some {α : Type} [DecidableEq α] {c : α} {s r : List α}
    (h : (splitOnceSeq [c] s).2 = some r) : countOcc c s = countOcc c r + 1 := by
  rcases splitOnceSeq_single c s with ⟨h1, -⟩ | ⟨r', h1, h2⟩
  · rw [h1] at h; simp at h
  · rw [h1] at h
    simp at h
    subst h
    exact h2

/-! ### Shape of `splitChar2` -/

theorem splitChar2_eq_none {s a : List Char} (h : splitOnceSeq [spChar] s = (a, none)) :
    splitChar2 s = [a] := by
  unfold splitChar2; rw [h]

theorem splitChar2_eq_one {s a r1 b : List Char} (h : splitOnceSeq [spChar] s = (a, some r1))
    (h2 : splitOnceSeq [spChar] r1 = (b, none)) : splitChar2 s = [a, b] := by
  unfold splitChar2
  rw [h]
  show (match splitOnceSeq [spChar] r1 with
        | (b, none) => [a, b]
        | (b, some r2) => [a, b, r2]) = [a, b]
  rw [h2]

theorem splitChar2_eq_two {s a r1 b r2 : List Char} (h : splitOnceSeq [spChar] s = (a, some r1))
    (h2 : splitOnceSeq [spChar] r1 = (b, some r2)) : splitChar2 s = [a, b, r2] := by
  unfold splitChar2
  rw [h]
  show (match splitOnceSeq [spChar] r1 with
        | (b, none) => [a, b]
        | (b, some r2) => [a, b, r2]) = [a, b, r2]
  rw [h2]

theorem splitChar2_len3_iff (s : List Char) :
    (splitChar2 s).length = 3 ↔ 2 ≤ countOcc spChar s := by
  rcases h1 : splitOnceSeq [spChar] s with ⟨a, _ | r1⟩
  · rw [splitChar2_eq_none h1]
    have hc : countOcc spChar s = 0 :=
      countOcc_of_split_none (by rw [h1])
    simp [hc]
  · have hc : countOcc spChar s = countOcc spChar r1 + 1 :=
      countOcc_of_split_some (by rw [h1])
    rcases h2 : splitOnceSeq [spChar] r1 with ⟨b, _ | r2⟩
    · rw [splitChar2_eq_one h1 h2]
      have hc2 : countOcc spChar r1 = 0 :=
        countOcc_of_split_none (by rw [h2])
      simp [hc, hc2]
    · rw [splitChar2_eq_two h1 h2]
      have hc2 : countOcc spChar r1 = countOcc spChar r2 + 1 :=
        countOcc_of_split_some (by rw [h2])
      simp [hc, hc2]

theorem splitChar2_shape (s : List Char) :
    (∃ a, splitChar2 s = [a]) ∨ (∃ a b, splitChar2 s = [a, b])
    ∨ (∃ a b c, splitChar2 s = [a, b, c]) := by
  rcases h1 : splitOnceSeq [spChar] s with ⟨a, _ | r1⟩
  · exact Or.inl ⟨a, splitChar2_eq_none h1⟩
  · rcases h2 : splitOnceSeq [spChar] r1 with ⟨b, _ | r2⟩
    · exact Or.inr (Or.inl ⟨a, b, splitChar2_eq_one h1 h2⟩)
    · exact Or.inr (Or.inr ⟨a, b, r2, splitChar2_eq_two h1 h2⟩)

/-! ### Reductions of `handle_request` -/

theorem requestTokens_shape (req : List Nat) :
    (∃ a, requestTokens req = [a]) ∨ (∃ a b, requestTokens req = [a, b])
    ∨ (∃ a b c, requestTokens req = [a, b, c]) := by
  unfold requestTokens
  exact splitChar2_shape _

theorem handle_request_tokens3 {idx req : List Nat} {m p v : List Char}
    (h : requestTokens req = [m, p, v]) :
    handle_request idx req = route idx m p := by
  unfold handle_request; rw [h]

theorem handle_request_tokens_ne3 {idx req : List Nat}
    (h : (requestTokens req).length ≠ 3) :
    handle_request idx req = response400 := by
  unfold handle_request
  rcases requestTokens_shape req with ⟨a, ha⟩ | ⟨a, b, ha⟩ | ⟨a, b, c, ha⟩
  · rw [ha]
  · rw [ha]
  · rw [ha] at h; simp at h

theorem route_ne_400 (idx : List Nat) (m p : List Char) : route idx m p ≠ response400 := by
  unfold route
  split_ifs
  · exact r405_ne
  · exact html200_ne idx
  · exact json_ne
  · exact r404_ne

theorem route_cases (idx : List Nat) (m p : List Char) :
    route idx m p = response405 ∨ route idx m p = html200 idx
    ∨ route idx m p = json200 ∨ route idx m p = response404 := by
  unfold route
  split_ifs <;> simp

theorem hr_400_iff (idx req : List Nat) :
    handle_request idx req = response400 ↔ (requestTokens req).length ≠ 3 := by
  constructor
  · intro h hlen
    rcases requestTokens_shape req with ⟨a, ha⟩ | ⟨a, b, ha⟩ | ⟨a, b, c, ha⟩
    · rw [ha] at hlen; simp at hlen
    · rw [ha] at hlen; simp at hlen
    · rw [handle_request_tokens3 ha] at h
      exact route_ne_400 idx a b h
  · exact handle_request_tokens_ne3

/-! ### The buffering loop -/

theorem rl_stop (buf : List Nat) (cs : List (List Nat))
    (h : hasDelim buf = true ∨ 65536 ≤ buf.length) : readLoop buf cs = buf := by
  unfold readLoop
  rw [if_pos h]

theorem rl_nil (buf : List Nat) : readLoop buf [] = buf := by
  unfold readLoop
  split <;> rfl

theorem rl_empty (buf : List Nat) (cs : List (List Nat))
    (h1 : hasDelim buf = false) (h2 : buf.length < 65536) :
    readLoop buf ([] :: cs) = buf := by
  unfold readLoop
  rw [if_neg (by simp [h1]; omega)]
  simp

theorem rl_go (buf c : List Nat) (cs : List (List Nat))
    (h1 : hasDelim buf = false) (h2 : buf.length < 65536) (h3 : c ≠ []) :
    readLoop buf (c :: cs) = readLoop (buf ++ c) cs := by
  conv_lhs => unfold readLoop
  rw [if_neg (by simp [h1]; omega)]
  simp [h3]

theorem readLoop_bound : ∀ (chunks : List (List Nat)) (buf : List Nat),
    (∀ c ∈ chunks, c.length ≤ 4096) → buf.length < 65536 + 4096 →
    (readLoop buf chunks).length < 65536 + 4096 := by
  intro chunks
  induction chunks with
  | nil => intro buf _ hb; rw [rl_nil]; exact hb
  | cons c cs ih =>
    intro buf h hb
    cases hd : hasDelim buf with
    | true => rw [rl_stop buf _ (Or.inl hd)]; exact hb
    | false =>
      by_cases hlen : 65536 ≤ buf.length
      · rw [rl_stop buf _ (Or.inr hlen)]; exact hb
      · by_cases hc : c = []
        · subst hc; rw [rl_empty buf cs hd (by omega)]; exact hb
        · rw [rl_go buf c cs hd (by omega) hc]
          apply ih
          · intro c' hc'; exact h c' (List.mem_cons_of_mem _ hc')
          · have h4 := h c (List.mem_cons_self c cs)
            rw [List.length_append]
            omega

theorem containsSeq_13_of_no13 (l : List Nat) (h : ∀ b ∈ l, b ≠ 13) :
    containsSeq [13, 10, 13, 10] l = false := by
  induction l with
  | nil => rfl
  | cons x xs ih =>
    have hx : x ≠ 13 := h x (List.mem_cons_self x xs)
    simp [containsSeq, startsWith, show ¬ (13 : Nat) = x from fun hh => hx hh.symm,
      ih (fun b hb => h b (List.mem_cons_of_mem _ hb))]

theorem hasDelim_replicate (n : Nat) : hasDelim (List.replicate n 65) = false := by
  unfold hasDelim
  apply containsSeq_13_of_no13
  intro b hb
  rw [List.mem_replicate] at hb
  omega

theorem replicate_65_ne_nil (n : Nat) (h : n ≠ 0) : List.replicate n 65 ≠ ([] : List Nat) := by
  intro he
  have h2 := congrArg List.length he
  simp at h2
  exact h h2

theorem run_replicate : ∀ (k m : Nat), m + 4096 * k = 69631 →
    readLoop (List.replicate m 65) (List.replicate k chunk4096) = List.replicate 69631 65 := by
  intro k
  induction k with
  | zero =>
    intro m hm
    rw [List.replicate_zero, rl_nil]
    have hm2 : m = 69631 := by omega
    rw [hm2]
  | succ k ih =>
    intro m hm
    have hmlt : m < 65536 := by omega
    rw [List.replicate_succ]
    rw [rl_go _ _ _ (hasDelim_replicate m) (by simpa using hmlt)
        (by unfold chunk4096; exact replicate_65_ne_nil 4096 (by norm_num))]
    rw [show List.replicate m 65 ++ chunk4096 = List.replicate (m + 4096) 65 by
      unfold chunk4096; rw [← List.replicate_add]]
    exact ih (m + 4096) (by omega)

theorem exChunks_run : readLoop [] exChunks = List.replicate 69631 65 := by
  unfold exChunks
  rw [rl_go [] (List.replicate 4095 65) _ rfl (by simp)
      (replicate_65_ne_nil 4095 (by norm_num))]
  rw [List.nil_append]
  exact run_replicate 16 4095 (by norm_num)

theorem exChunks_small : ∀ c ∈ exChunks, c.length ≤ 4096 := by
  intro c hc
  unfold exChunks at hc
  rw [List.mem_cons] at hc
  rcases hc with rfl | hc
  · rw [List.length_replicate]; norm_num
  · rw [List.mem_replicate] at hc
    rw [hc.2]
    unfold chunk4096
    rw [List.length_replicate]

/-! ### Spaces in the decoded request line versus 0x20 bytes in the raw line -/

theorem countSp_step_char (c : Char) (s : List Char) (hc : c ≠ crChar) :
    countOcc spChar ((splitOnceSeq [crChar, lfChar] (c :: s)).1)
      = (if c = spChar then 1 else 0)
        + countOcc spChar ((splitOnceSeq [crChar, lfChar] s).1) := by
  have hsw : startsWith [crChar, lfChar] (c :: s) = false := by
    simp [startsWith, show ¬ crChar = c from fun h => hc h.symm]
  rw [splitOnceSeq_neg hsw]
  simp [countOcc]

theorem count32_step_byte (b : Nat) (l : List Nat) (hb : b ≠ 13) :
    countOcc 32 ((splitOnceSeq [13, 10] (b :: l)).1)
      = (if b = 32 then 1 else 0) + countOcc 32 ((splitOnceSeq [13, 10] l).1) := by
  have hsw : startsWith [13, 10] (b :: l) = false := by
    simp [startsWith, show ¬ (13 : Nat) = b from fun h => hb h.symm]
  rw [splitOnceSeq_neg hsw]
  simp [countOcc]

theorem count32_steps (pre l : List Nat) (hpre : ∀ b ∈ pre, 128 ≤ b) :
    countOcc 32 ((splitOnceSeq [13, 10] (pre ++ l)).1)
      = countOcc 32 ((splitOnceSeq [13, 10] l).1) := by
  induction pre with
  | nil => rw [List.nil_append]
  | cons b bs ih =>
    rw [List.cons_append]
    have hb : 128 ≤ b := hpre b (List.mem_cons_self b bs)
    rw [count32_step_byte b _ (by omega), if_neg (by omega)]
    simp [ih (fun x hx => hpre x (List.mem_cons_of_mem _ hx))]

theorem ofNat_small_ne_cr (x : Nat) (hx : x < 128) (h13 : x ≠ 13) : Char.ofNat x ≠ crChar := by
  intro h
  have h2 := (ofNat_small_eq_iff x (by omega) crChar).mp h
  have h3 : crChar.toNat = 13 := by decide
  omega

theorem ofNat_small_sp_iff (x : Nat) (hx : x < 128) : Char.ofNat x = spChar ↔ x = 32 := by
  rw [ofNat_small_eq_iff x (by omega) spChar,
      show spChar.toNat = 32 from by decide]

theorem decode_cons_head_ne_lf (y : Nat) (ys : List Nat) (hy : y ≠ 10) :
    ∃ c s, decodeReplace (y :: ys) = c :: s ∧ c ≠ lfChar := by
  rw [decodeReplace_cons]
  refine ⟨(decodeStep y ys).1, decodeReplace ((decodeStep y ys).2), rfl, ?_⟩
  by_cases hsmall : y < 128
  · rw [decodeStep_small ys hsmall]
    intro h
    have h2 := (ofNat_small_eq_iff y (by omega) lfChar).mp h
    have h3 : lfChar.toNat = 10 := by decide
    omega
  · obtain ⟨pre, hxs, hpre, hc⟩ := decodeStep_big y ys (by omega)
    rcases hc with hc | ⟨v, hv, hc⟩
    · rw [hc]; decide
    · rw [hc]; exact ofNat_big_ne v hv lfChar (by decide) (by decide)

theorem decode_count_aux : ∀ (n : Nat) (l : List Nat), l.length ≤ n →
    countOcc spChar ((splitOnceSeq [crChar, lfChar] (decodeReplace l)).1)
      = countOcc 32 ((splitOnceSeq [13, 10] l).1) := by
  intro n
  induction n with
  | zero =>
    intro l hl
    have hn : l = [] := List.length_eq_zero.mp (Nat.le_zero.mp hl)
    subst hn
    rfl
  | succ n ih =>
    intro l hl
    rcases l with _ | ⟨x, xs⟩
    · rfl
    simp only [List.length_cons] at hl
    by_cases h13 : x = 13
    · subst h13
      rcases xs with _ | ⟨y, ys⟩
      · decide
      by_cases h10 : y = 10
      · subst h10
        have hL : decodeReplace (13 :: 10 :: ys) = crChar :: lfChar :: decodeReplace ys := by
          rw [decodeReplace_cons 13 (10 :: ys), decodeStep_small (10 :: ys) (by norm_num)]
          show Char.ofNat 13 :: decodeReplace (10 :: ys) = _
          rw [decodeReplace_cons 10 ys, decodeStep_small ys (by norm_num)]
          show Char.ofNat 13 :: Char.ofNat 10 :: decodeReplace ys = _
          rw [show Char.ofNat 13 = crChar from by decide,
              show Char.ofNat 10 = lfChar from by decide]
        rw [hL]
        rw [splitOnceSeq_pos (show startsWith [crChar, lfChar]
              (crChar :: lfChar :: decodeReplace ys) = true by simp [startsWith])]
        rw [splitOnceSeq_pos (show startsWith [13, 10] (13 :: 10 :: ys) = true
              by simp [startsWith])]
        rfl
      · have hL : decodeReplace (13 :: y :: ys) = crChar :: decodeReplace (y :: ys) := by
          rw [decodeReplace_cons 13 (y :: ys), decodeStep_small (y :: ys) (by norm_num)]
          show Char.ofNat 13 :: decodeReplace (y :: ys) = _
          rw [show Char.ofNat 13 = crChar from by decide]
        obtain ⟨c, s, hcs, hcne⟩ := decode_cons_head_ne_lf y ys h10
        have hswC : startsWith [crChar, lfChar] (crChar :: decodeReplace (y :: ys)) = false := by
          rw [hcs]
          simp [startsWith, show ¬ lfChar = c from fun h => hcne h.symm]
        have hswB : startsWith [13, 10] (13 :: y :: ys) = false := by
          simp [startsWith, show ¬ (10 : Nat) = y from fun h => h10 h.symm]
        rw [hL, splitOnceSeq_neg hswC, splitOnceSeq_neg hswB]
        simp only [countOcc]
        rw [if_neg (show ¬ crChar = spChar from by decide),
            if_neg (show ¬ (13 : Nat) = 32 from by decide)]
        simp only [Nat.zero_add]
        exact ih (y :: ys) (by simp only [List.length_cons] at hl ⊢; omega)
    · by_cases hsmall : x < 128
      · have hL : decodeReplace (x :: xs) = Char.ofNat x :: decodeReplace xs := by
          rw [decodeReplace_cons x xs, decodeStep_small xs hsmall]
        rw [hL]
        rw [countSp_step_char (Char.ofNat x) _ (ofNat_small_ne_cr x hsmall h13)]
        rw [count32_step_byte x xs h13]
        rw [ih xs (by omega)]
        congr 1
        by_cases hx32 : x = 32
        · subst hx32
          rw [if_pos (show Char.ofNat 32 = spChar from by decide), if_pos rfl]
        · rw [if_neg (by rw [ofNat_small_sp_iff x hsmall]; exact hx32), if_neg hx32]
      · obtain ⟨pre, hxs, hpre, hc⟩ := decodeStep_big x xs (by omega)
        rw [decodeReplace_cons x xs]
        have hcne : (decodeStep x xs).1 ≠ crChar := by
          rcases hc with hc | ⟨v, hv, hc⟩
          · rw [hc]; decide
          · rw [hc]; exact ofNat_big_ne v hv crChar (by decide) (by decide)
        have hns : ¬ (decodeStep x xs).1 = spChar := by
          rcases hc with hc | ⟨v, hv, hc⟩
          · rw [hc]; decide
          · rw [hc]; exact ofNat_big_ne v hv spChar (by decide) (by decide)
        rw [countSp_step_char _ _ hcne, if_neg hns]
        have hsplit : x :: xs = (x :: pre) ++ (decodeStep x xs).2 := by
          rw [List.cons_append, ← hxs]
        rw [hsplit]
        rw [count32_steps (x :: pre) _
          (by
            intro b hb
            rcases List.mem_cons.mp hb with rfl | hb2
            exacts [by omega, hpre b hb2])]
        rw [Nat.zero_add]
        have hlen := decodeStep_len x xs
        exact ih _ (by omega)

theorem decode_count (l : List Nat) :
    countOcc spChar ((splitOnceSeq [crChar, lfChar] (decodeReplace l)).1)
      = countOcc 32 ((splitOnceSeq [13, 10] l).1) :=
  decode_count_aux l.length l le_rfl

theorem splitOnceSeq_fst_pos {α : Type} [DecidableEq α] {pat : List α} {x : α} {xs : List α}
    (h : startsWith pat (x :: xs) = true) : (splitOnceSeq pat (x :: xs)).1 = [] := by
  rw [splitOnceSeq_pos h]

theorem splitOnceSeq_fst_neg {α : Type} [DecidableEq α] {pat : List α} {x : α} {xs : List α}
    (h : startsWith pat (x :: xs) = false) :
    (splitOnceSeq pat (x :: xs)).1 = x :: (splitOnceSeq pat xs).1 := by
  rw [splitOnceSeq_neg h]

theorem fst2_of_fst4 : ∀ l : List Nat,
    (splitOnceSeq [13, 10] ((splitOnceSeq [13, 10, 13, 10] l).1)).1
      = (splitOnceSeq [13, 10] l).1 := by
  intro l
  induction l with
  | nil => rfl
  | cons x xs ih =>
    by_cases h4 : startsWith [13, 10, 13, 10] (x :: xs) = true
    · rw [splitOnceSeq_fst_pos h4]
      have h2 : startsWith [13, 10] (x :: xs) = true := by
        rcases xs with _ | ⟨y, ys⟩
        · simp [startsWith] at h4
        · simp [startsWith] at h4 ⊢
          exact ⟨h4.1, h4.2.1⟩
      rw [splitOnceSeq_fst_pos h2]
      rfl
    · have h4f : startsWith [13, 10, 13, 10] (x :: xs) = false := by
        simpa using h4
      by_cases h2 : startsWith [13, 10] (x :: xs) = true
      · rcases xs with _ | ⟨y, ys⟩
        · simp [startsWith] at h2
        · have hx : (13 : Nat) = x := by
            by_contra hx
            simp [startsWith, hx] at h2
          have hy : (10 : Nat) = y := by
            by_contra hy
            simp [startsWith, hy] at h2
          subst hx
          subst hy
          rw [splitOnceSeq_fst_neg h4f]
          rw [splitOnceSeq_fst_neg (show startsWith [13, 10, 13, 10] (10 :: ys) = false
              by simp [startsWith])]
          rw [splitOnceSeq_fst_pos (show startsWith [13, 10]
              (13 :: 10 :: (splitOnceSeq [13, 10, 13, 10] ys).1) = true by simp [startsWith])]
          rw [splitOnceSeq_fst_pos h2]
      · have h2f : startsWith [13, 10] (x :: xs) = false := by
          simpa using h2
        rw [splitOnceSeq_fst_neg h4f, splitOnceSeq_fst_neg h2f]
        have hns : startsWith [13, 10] (x :: (splitOnceSeq [13, 10, 13, 10] xs).1) = false := by
          by_cases hx13 : (13 : Nat) = x
          · rcases xs with _ | ⟨y, ys⟩
            · simp [startsWith, splitOnceSeq]
            · have hy : ¬ (10 : Nat) = y := by
                intro hy
                rw [← hx13, ← hy] at h2f
                simp [startsWith] at h2f
              rcases splitOnceSeq_fst_shape [13, 10, 13, 10] y ys with hsh | ⟨t, hsh⟩
              · rw [hsh]
                simp [startsWith]
              · rw [hsh]
                simp [startsWith, hy]
          · simp [startsWith, hx13]
        rw [splitOnceSeq_fst_neg hns, ih]

theorem countSp_requestLine (req : List Nat) :
    countOcc spChar (requestLine req) = countOcc 32 (firstLineBytes req) := by
  unfold requestLine firstLineBytes headBytes
  rw [decode_count, fst2_of_fst4]

theorem tokens3_iff_two_spaces (req : List Nat) :
    (requestTokens req).length = 3 ↔ 2 ≤ countOcc 32 (firstLineBytes req) := by
  unfold requestTokens
  rw [splitChar2_len3_iff, countSp_requestLine]

/-! ### The claims -/

/-- C1 (amended): `handle_request` returns the 400 response exactly when the
request line does not split, with at most two splits (`split(" ", 2)`), into
exactly three tokens — equivalently, when it contains fewer than two spaces.
A line that does yield three tokens (the third absorbing any further spaces)
is never rejected as malformed. -/
theorem C1_request_line_tokens (idx req : List Nat) :
    handle_request idx req = response400 ↔ (requestTokens req).length ≠ 3 :=
  hr_400_iff idx req

/-- C1 counterexample: the first line of `exReqFourTokens` splits (on single
spaces, unbounded) into four tokens, which is not exactly three, yet
`handle_request` returns the 404 response, not the 400 response: a request
line with more than three space-separated words is not treated as malformed. -/
theorem C1_counterexample :
    (splitAllChar spChar (requestLine exReqFourTokens)).length = 4
    ∧ handle_request [] exReqFourTokens = response404
    ∧ response404 ≠ response400 :=
  ⟨by decide, by decide, by decide⟩

/-- C2: for every (status, content-type, body), `http_response` returns
exactly the four CRLF-terminated header lines — the status line
`HTTP/1.1 <status>`, `Content-Type`, `Content-Length` (the decimal byte
length of the body), `Connection: close` — followed by one blank
CRLF-terminated line, followed by the raw body unchanged. -/
theorem C2_response_layout (status content_type : List Char) (body : List Nat) :
    http_response status content_type body
      = utf8Encode (strL "HTTP/1.1 " ++ status) ++ [13, 10]
        ++ utf8Encode (strL "Content-Type: " ++ content_type) ++ [13, 10]
        ++ utf8Encode (strL "Content-Length: " ++ strL (Nat.repr body.length)) ++ [13, 10]
        ++ utf8Encode (strL "Connection: close") ++ [13, 10] ++ [13, 10] ++ body :=
  http_response_layout status content_type body

/-- C3: for every input byte sequence, `handle_request` returns one of the
five well-formed `http_response` results (it is total, so it never raises
past its boundary), and every parse failure — a request line that does not
split into three tokens — yields the single 400 "bad request" outcome,
before any method or path dispatch. -/
theorem C3_always_wellformed (idx req : List Nat) :
    (handle_request idx req = response400 ∨ handle_request idx req = response405
      ∨ handle_request idx req = html200 idx ∨ handle_request idx req = json200
      ∨ handle_request idx req = response404)
    ∧ ((requestTokens req).length ≠ 3 → handle_request idx req = response400) := by
  constructor
  · rcases requestTokens_shape req with ⟨a, ha⟩ | ⟨a, b, ha⟩ | ⟨a, b, c, ha⟩
    · exact Or.inl (handle_request_tokens_ne3 (by rw [ha]; simp))
    · exact Or.inl (handle_request_tokens_ne3 (by rw [ha]; simp))
    · rw [handle_request_tokens3 ha]
      rcases route_cases idx a b with h | h | h | h
      · exact Or.inr (Or.inl h)
      · exact Or.inr (Or.inr (Or.inl h))
      · exact Or.inr (Or.inr (Or.inr (Or.inl h)))
      · exact Or.inr (Or.inr (Or.inr (Or.inr h)))
  · exact handle_request_tokens_ne3

/-- C3 witness: the truncated request `GET /` is a parse failure and maps
to the 400 response. -/
theorem C3_always_wellformed_witness :
    handle_request [] (asciiBytes "GET /") = response400 :=
  (C3_always_wellformed [] (asciiBytes "GET /")).2 (by decide)

/-- C4 (amended): the buffering loop continues exactly while the buffer
lacks the double-CRLF delimiter and is shorter than 65536 bytes, and stops
on a zero-byte read or exhausted input; starting from an empty buffer with
chunks of at most 4096 bytes, the buffer handed to the parser is bounded by
65536 + 4095 bytes (strictly less than 65536 + 4096), not by 65536. -/
theorem C4_read_loop :
    (∀ buf cs, hasDelim buf = true → readLoop buf cs = buf)
    ∧ (∀ buf cs, 65536 ≤ buf.length → readLoop buf cs = buf)
    ∧ (∀ buf, readLoop buf [] = buf)
    ∧ (∀ buf cs, hasDelim buf = false → buf.length < 65536 → readLoop buf ([] :: cs) = buf)
    ∧ (∀ buf c cs, hasDelim buf = false → buf.length < 65536 → c ≠ [] →
        readLoop buf (c :: cs) = readLoop (buf ++ c) cs)
    ∧ (∀ chunks, (∀ c ∈ chunks, c.length ≤ 4096) →
        (readLoop [] chunks).length < 65536 + 4096) :=
  ⟨fun buf cs h => rl_stop buf cs (Or.inl h),
   fun buf cs h => rl_stop buf cs (Or.inr h),
   rl_nil,
   rl_empty,
   rl_go,
   fun chunks h => readLoop_bound chunks [] h (by simp)⟩

/-- C4 witness: the loop stops on a buffer already holding the delimiter,
stops on a zero-byte read, and the accumulated buffer respects the bound. -/
theorem C4_read_loop_witness :
    readLoop [13, 10, 13, 10] [[65]] = [13, 10, 13, 10]
    ∧ readLoop [] [[65], []] = [65]
    ∧ (readLoop [] [[65]]).length < 65536 + 4096 := by
  refine ⟨C4_read_loop.1 _ _ (by decide), ?_, C4_read_loop.2.2.2.2.2 [[65]] (by decide)⟩
  have h1 := C4_read_loop.2.2.2.2.1 [] [65] [[]] (by decide) (by decide) (by decide)
  rw [List.nil_append] at h1
  rw [h1]
  exact C4_read_loop.2.2.2.1 [65] [] (by decide) (by decide)

/-- C4 counterexample: seventeen delimiter-free chunks of at most 4096 bytes
drive the accumulated buffer to 69631 bytes, so the buffer passed to the
parser is not bounded at 65536 bytes. -/
theorem C4_counterexample :
    (∀ c ∈ exChunks, c.length ≤ 4096) ∧ 65536 < (readLoop [] exChunks).length := by
  refine ⟨exChunks_small, ?_⟩
  rw [exChunks_run, List.length_replicate]
  norm_num

/-- C5: every successfully parsed request with method `GET` and path
`/api/hello` yields status 200 with the JSON content type and body equal to
the serialization of the object with keys in order message, ok. -/
theorem C5_api_hello (idx req : List Nat) (v : List Char)
    (h : requestTokens req = [strL "GET", strL "/api/hello", v]) :
    handle_request idx req
      = http_response (strL "200 OK") (strL "application/json; charset=utf-8")
          (utf8Encode jsonHello) := by
  rw [handle_request_tokens3 h]
  unfold route
  rw [if_neg (by simp), if_neg (by decide), if_pos rfl]
  rfl

/-- C5 witness: a concrete GET request for /api/hello. -/
theorem C5_api_hello_witness :
    handle_request [] exReqHello
      = http_response (strL "200 OK") (strL "application/json; charset=utf-8")
          (utf8Encode jsonHello) :=
  C5_api_hello [] exReqHello (strL "HTTP/1.1") (by decide)

/-- C6: every successfully parsed request whose method token is not `GET`
yields the 405 response with body `Only GET Method Supported`, regardless
of the path. -/
theorem C6_non_get (idx req : List Nat) (m p v : List Char)
    (h : requestTokens req = [m, p, v]) (hm : m ≠ strL "GET") :
    handle_request idx req = response405 := by
  rw [handle_request_tokens3 h]
  unfold route
  rw [if_pos hm]

/-- C6 witness: a concrete POST request. -/
theorem C6_non_get_witness : handle_request [] exReqPost = response405 :=
  C6_non_get [] exReqPost (strL "POST") (strL "/api/hello") (strL "HTTP/1.1")
    (by decide) (by decide)

/-- C7: for every successfully parsed GET request, the paths `/` and
`/index.html` yield status 200 with the loaded index content as body, and
any other path except `/api/hello` yields the 404 response. -/
theorem C7_get_routes (idx req : List Nat) (p v : List Char)
    (h : requestTokens req = [strL "GET", p, v]) :
    ((p = strL "/" ∨ p = strL "/index.html") → handle_request idx req = html200 idx)
    ∧ (p ≠ strL "/" → p ≠ strL "/index.html" → p ≠ strL "/api/hello" →
        handle_request idx req = response404) := by
  rw [handle_request_tokens3 h]
  unfold route
  rw [if_neg (by simp)]
  constructor
  · intro hp
    rw [if_pos hp]
  · intro h1 h2 h3
    rw [if_neg (by rintro (hh | hh); exacts [h1 hh, h2 hh]), if_neg h3]

/-- C7 witness: concrete GET requests for the root path and for an unknown
path. -/
theorem C7_get_routes_witness :
    handle_request [72, 73] exReqRoot = html200 [72, 73]
    ∧ handle_request [72, 73] exReqUnknown = response404 := by
  constructor
  · exact (C7_get_routes [72, 73] exReqRoot (strL "/") (strL "HTTP/1.1")
      (by decide)).1 (Or.inl rfl)
  · exact (C7_get_routes [72, 73] exReqUnknown (strL "/nope") (strL "HTTP/1.1")
      (by decide)).2 (by decide) (by decide) (by decide)

/-- C8: `handle_request` is deterministic — byte-identical request inputs
with the same loaded index content give byte-identical responses; in this
embedding `handle_request` is a pure function of its two arguments, mirroring
that the source reads only its argument and the immutable module-level
`INDEX`. -/
theorem C8_deterministic (idx r1 r2 : List Nat) (h : r1 = r2) :
    handle_request idx r1 = handle_request idx r2 := by
  rw [h]

/-- C8 witness: the same request twice. -/
theorem C8_deterministic_witness :
    handle_request [] exReqRoot = handle_request [] exReqRoot :=
  C8_deterministic [] exReqRoot exReqRoot rfl

/-- C9: `handle_request` returns the 400 response if and only if the first
line of the raw request (the bytes before the first CRLF) contains fewer
than two space (0x20) bytes; any request whose first line has at least two
spaces — including arbitrary invalid UTF-8, which the replacing decoder
never turns into a failure — is dispatched to the 405/200/404 branches. -/
theorem C9_space_criterion (idx req : List Nat) :
    (handle_request idx req = response400 ↔ countOcc 32 (firstLineBytes req) < 2)
    ∧ (2 ≤ countOcc 32 (firstLineBytes req) →
        handle_request idx req = response405 ∨ handle_request idx req = html200 idx
        ∨ handle_request idx req = json200 ∨ handle_request idx req = response404) := by
  constructor
  · rw [hr_400_iff idx req, ← Nat.not_le, not_iff_not]
    exact tokens3_iff_two_spaces req
  · intro h
    have h3 := (tokens3_iff_two_spaces req).mpr h
    rcases requestTokens_shape req with ⟨a, ha⟩ | ⟨a, b, ha⟩ | ⟨a, b, c, ha⟩
    · rw [ha] at h3; simp at h3
    · rw [ha] at h3; simp at h3
    · rw [handle_request_tokens3 ha]
      exact route_cases idx a b

/-- C9 witness: a request whose first line holds two spaces is dispatched. -/
theorem C9_space_criterion_witness :
    handle_request [] exReqHello = response405 ∨ handle_request [] exReqHello = html200 []
    ∨ handle_request [] exReqHello = json200 ∨ handle_request [] exReqHello = response404 :=
  (C9_space_criterion [] exReqHello).2 (by decide)

/-- C10: with chunks of at most 4096 bytes each, the buffer accumulated by
the read loop is always strictly shorter than 65536 + 4096 bytes — the cap
is checked before each read — and the bound is tight: a chunk sequence
exists that drives the buffer to exactly 65536 + 4095 bytes. -/
theorem C10_overshoot :
    (∀ chunks, (∀ c ∈ chunks, c.length ≤ 4096) →
        (readLoop [] chunks).length < 65536 + 4096)
    ∧ (∃ chunks, (∀ c ∈ chunks, c.length ≤ 4096)
        ∧ (readLoop [] chunks).length = 65536 + 4095) := by
  constructor
  · intro chunks h
    exact readLoop_bound chunks [] h (by simp)
  · exact ⟨exChunks, exChunks_small, by rw [exChunks_run, List.length_replicate]⟩

/-- C10 witness: a single small chunk respects the strict bound. -/
theorem C10_overshoot_witness : (readLoop [] [[65]]).length < 65536 + 4096 :=
  C10_overshoot.1 [[65]] (by decide)
